import Mathlib

/-
Verification development for the parking-ticket ingestion pipeline
(Socrata SODA client, row mapper, cursor store, batch upsert writer,
sync orchestrator and scheduler).

The definitions below are shallow embeddings of the TypeScript source:
  - ingest/config.ts   : constants, DatasetId, ParkingTicketRow, mapToTicketRow
  - ingest/socrata.ts  : fetchWithRetry, backfillPages, incrementalPages
  - ingest/db.ts       : getCursor, updateCursor, buildUpsertQuery/upsertTickets,
                         getMaxUpdatedAt
  - ingest/run.ts      : runSync
  - scripts/scheduler.ts : the setInterval based scheduler loop

Host-environment primitives that have no reasonable pure embedding
(JavaScript Date parsing, Number coercion, ISO serialisation of
timestamps coming back from the relational store) are taken as explicit
function parameters; every theorem quantifies over them, so nothing
proved depends on their behaviour.
-/

namespace Parking

/-! ## Configuration constants (ingest/config.ts) -/

def PAGE_SIZE : Nat := 1000
def BATCH_INSERT_SIZE : Nat := 500
def DELAY_BETWEEN_PAGES_MS : Nat := 100
def MAX_RETRIES : Nat := 5
def INITIAL_BACKOFF_MS : Nat := 1000

/-- The two supported dataset identities (the DATASETS constant). -/
inductive DatasetId where
  | pvqr7yc4
  | nc67uf89
deriving DecidableEq, Repr

/-- External string identifier of a dataset. -/
def DatasetId.key : DatasetId → String
  | .pvqr7yc4 => "pvqr-7yc4"
  | .nc67uf89 => "nc67-uf89"

/-! ## Raw records

A raw Socrata row is an open dictionary of field name to value.  The
pipeline reads every field it uses through a cast to string, so we model
a raw record as an association list of string fields; an absent key
models the JavaScript value undefined. -/

abbrev Raw : Type := List (String × String)

/-- Read a field of a raw record; none models undefined. -/
def getField (raw : Raw) (k : String) : Option String :=
  (raw.find? (fun p => p.1 == k)).map (fun p => p.2)

/-- JavaScript falsiness of an optional string: undefined or the empty
string are falsy, every other string is truthy. -/
def strFalsy : Option String → Bool
  | none => true
  | some s => s == ""

/-- The pattern (raw.x as string) || null used throughout mapToTicketRow:
a falsy value becomes null, anything else is kept. -/
def orNull (o : Option String) : Option String :=
  if strFalsy o then none else o

/-! ## Canonical ticket rows (ingest/config.ts)

The three provenance fields are typed string in TypeScript but come from
unchecked casts of possibly-absent raw fields, so at runtime they can be
undefined; we model them as Option String for that reason.  Numeric
values (fine_amount) are abstracted through the jsNumber parameter. -/

structure ParkingTicketRow where
  summons_number : String
  source_dataset : String
  issue_date : Option String
  violation_time : Option String
  violation_code : Option String
  violation_desc : Option String
  issuing_agency : Option String
  county : Option String
  precinct : Option String
  street_name : Option String
  intersecting_street : Option String
  fine_amount : Option Int
  plate_id : Option String
  registration_state : Option String
  plate_type : Option String
  soda_row_id : Option String
  soda_created_at : Option String
  soda_updated_at : Option String
deriving DecidableEq, Repr

/-- parseDate of ingest/config.ts.  The host Date parse plus ISO date
formatting is the parameter jsDate (returning none when the parse gives
an invalid date); a falsy input yields null before the parse runs. -/
def parseDate (jsDate : String → Option String) : Option String → Option String
  | none => none
  | some s => if s == "" then none else jsDate s

/-- parseNumeric of ingest/config.ts.  The host Number coercion is the
parameter jsNumber (none models NaN); null, undefined and the empty
string yield null before the coercion runs. -/
def parseNumeric (jsNumber : String → Option Int) : Option String → Option Int
  | none => none
  | some s => if s == "" then none else jsNumber s

/-- Row construction of mapToTicketRow once the natural key s has been
accepted: one branch per dataset identity, each with its own
field-to-canonical mapping (ingest/config.ts). -/
def buildRow (jsDate : String → Option String)
    (jsNumber : String → Option Int) (datasetId : DatasetId) (raw : Raw)
    (s : String) : ParkingTicketRow :=
  let sodaRowId := getField raw ":id"
  let sodaCreatedAt := getField raw ":created_at"
  let sodaUpdatedAt := getField raw ":updated_at"
  match datasetId with
  | .pvqr7yc4 => {
          summons_number := s
          source_dataset := DatasetId.key .pvqr7yc4
          issue_date := parseDate jsDate (getField raw "issue_date")
          violation_time := orNull (getField raw "violation_time")
          violation_code := orNull (getField raw "violation_code")
          violation_desc := none
          issuing_agency := orNull (getField raw "issuing_agency")
          county := orNull (getField raw "violation_county")
          precinct := orNull (getField raw "violation_precinct")
          street_name := orNull (getField raw "street_name")
          intersecting_street := orNull (getField raw "intersecting_street")
          fine_amount := none
          plate_id := orNull (getField raw "plate_id")
          registration_state := orNull (getField raw "registration_state")
          plate_type := orNull (getField raw "plate_type")
          soda_row_id := sodaRowId
          soda_created_at := sodaCreatedAt
          soda_updated_at := sodaUpdatedAt }
  | .nc67uf89 => {
          summons_number := s
          source_dataset := DatasetId.key .nc67uf89
          issue_date := parseDate jsDate (getField raw "issue_date")
          violation_time := orNull (getField raw "violation_time")
          violation_code := none
          violation_desc := orNull (getField raw "violation")
          issuing_agency := orNull (getField raw "issuing_agency")
          county := orNull (getField raw "county")
          precinct := orNull (getField raw "precinct")
          street_name := none
          intersecting_street := none
          fine_amount := parseNumeric jsNumber (getField raw "fine_amount")
          plate_id := orNull (getField raw "plate")
          registration_state := orNull (getField raw "state")
          plate_type := orNull (getField raw "license_type")
          soda_row_id := sodaRowId
          soda_created_at := sodaCreatedAt
          soda_updated_at := sodaUpdatedAt }

/-- mapToTicketRow of ingest/config.ts: translate one raw record plus its
dataset identity into a canonical row, or reject it (none) when the
natural key summons_number is absent or empty (falsy). -/
def mapToTicketRow (jsDate : String → Option String)
    (jsNumber : String → Option Int) (datasetId : DatasetId) (raw : Raw) :
    Option ParkingTicketRow :=
  match getField raw "summons_number" with
  | none => none
  | some s =>
    if s == "" then none
    else some (buildRow jsDate jsNumber datasetId raw s)

@[simp]
theorem buildRow_summons (jsDate : String → Option String)
    (jsNumber : String → Option Int) (d : DatasetId) (raw : Raw)
    (s : String) :
    (buildRow jsDate jsNumber d raw s).summons_number = s := by
  cases d <;> rfl

/-- The per-page mapping step of runSync and of the scheduler: raw rows
that the mapper rejects are dropped, the rest are collected in order and
handed to the batch writer. -/
def mapPageRows (jsDate : String → Option String)
    (jsNumber : String → Option Int) (datasetId : DatasetId)
    (page : List Raw) : List ParkingTicketRow :=
  page.filterMap (mapToTicketRow jsDate jsNumber datasetId)

theorem mapToTicketRow_none_iff (jsDate : String → Option String)
    (jsNumber : String → Option Int) (d : DatasetId) (raw : Raw) :
    mapToTicketRow jsDate jsNumber d raw = none ↔
      (getField raw "summons_number" = none ∨
       getField raw "summons_number" = some "") := by
  unfold mapToTicketRow
  cases h : getField raw "summons_number" with
  | none => simp
  | some s =>
    by_cases hs : s = ""
    · subst hs; simp
    · simp [hs]

theorem mapToTicketRow_key (jsDate : String → Option String)
    (jsNumber : String → Option Int) (d : DatasetId) (raw : Raw)
    (row : ParkingTicketRow)
    (h : mapToTicketRow jsDate jsNumber d raw = some row) :
    row.summons_number ≠ "" := by
  unfold mapToTicketRow at h
  cases hg : getField raw "summons_number" with
  | none => rw [hg] at h; exact absurd h (by simp)
  | some s =>
    rw [hg] at h
    by_cases hs : s = ""
    · subst hs; simp at h
    · have hs' : (s == "") = false := by simp [hs]
      simp only [hs', Bool.false_eq_true, if_false, Option.some.injEq] at h
      rw [← h, buildRow_summons]
      exact hs

/-- C6: mapToTicketRow returns no canonical record exactly when the
natural key summons_number is absent or empty, and such records are
dropped before they reach the batch writer: the writer input for a page
is unchanged when keyless raw records are removed first, and every row
handed to the writer carries a nonempty key. -/
theorem natural_key_rejection (jsDate : String → Option String)
    (jsNumber : String → Option Int) (d : DatasetId) (raw : Raw)
    (page : List Raw) :
    (mapToTicketRow jsDate jsNumber d raw = none ↔
      (getField raw "summons_number" = none ∨
       getField raw "summons_number" = some "")) ∧
    mapPageRows jsDate jsNumber d page =
      mapPageRows jsDate jsNumber d
        (page.filter (fun r => !(strFalsy (getField r "summons_number")))) ∧
    (mapPageRows jsDate jsNumber d page).all
      (fun row => !(row.summons_number == "")) = true := by
  refine ⟨mapToTicketRow_none_iff jsDate jsNumber d raw, ?_, ?_⟩
  · unfold mapPageRows
    induction page with
    | nil => rfl
    | cons r rest ih =>
      rw [List.filter_cons]
      by_cases hb : strFalsy (getField r "summons_number") = true
      · have hnone : mapToTicketRow jsDate jsNumber d r = none := by
          rw [mapToTicketRow_none_iff]
          cases hg : getField r "summons_number" with
          | none => exact Or.inl rfl
          | some s =>
            right
            rw [hg] at hb
            simp only [strFalsy] at hb
            simp [eq_of_beq hb]
        simp [hb, List.filterMap_cons, hnone, ih]
      · have hb' : strFalsy (getField r "summons_number") = false := by
          simpa using hb
        cases hmap : mapToTicketRow jsDate jsNumber d r <;>
          simp [hb', List.filterMap_cons, hmap, ih]
  · rw [List.all_eq_true]
    intro row hrow
    unfold mapPageRows at hrow
    rcases List.mem_filterMap.mp hrow with ⟨r, _, hmap⟩
    have := mapToTicketRow_key jsDate jsNumber d r row hmap
    simpa using this

/-! ## Retrying fetcher (fetchWithRetry in ingest/socrata.ts)

One call to the host fetch either raises a network-level error or
produces a response with a status and an optional numeric Retry-After
header value (in seconds).  The outcome of attempt number i is given by
the environment parameter resp i. -/

structure Resp where
  status : Nat
  retryAfter : Option Nat
deriving DecidableEq, Repr

inductive AttemptOutcome where
  | netError (msg : String)
  | response (r : Resp)
deriving DecidableEq, Repr

inductive FetchErr where
  | netErr (msg : String)
  | httpErr (status : Nat)
deriving DecidableEq, Repr

inductive FetchResult where
  | success (r : Resp)
  | failure (e : FetchErr)
deriving DecidableEq, Repr

/-- Observable trace of one fetchWithRetry call: how many times the host
fetch ran, the sleep durations (ms) in order, and the outcome. -/
structure RetryTrace where
  calls : Nat
  waits : List Nat
  result : FetchResult
deriving DecidableEq, Repr

/-- The fetchWithRetry loop.  The structural fuel argument counts the
loop iterations still allowed; the source runs attempt = 0 .. retries
inclusive, so the loop entry uses fuel = retries + 1 and the fuel-zero
branch is exactly the post-loop
throw lastError || new Error(Request failed after retries).
attempt and backoff evolve as in the source; backoff doubles after every
sleep, also when a Retry-After wait replaced it.  An HTTP status outside
2xx raises an error inside the try block that the surrounding catch
treats like a network error, retrying it. -/
def fetchGo (resp : Nat → AttemptOutcome) (retries : Nat) :
    Nat → Nat → Nat → Option FetchErr → RetryTrace
  | 0, _, _, le =>
    ⟨0, [], .failure (le.getD (.netErr "Request failed after retries"))⟩
  | fuel + 1, attempt, backoff, le =>
    match resp attempt with
    | .netError m =>
      if attempt < retries then
        let t := fetchGo resp retries fuel (attempt + 1) (backoff * 2)
          (some (.netErr m))
        ⟨t.calls + 1, backoff :: t.waits, t.result⟩
      else ⟨1, [], .failure (.netErr m)⟩
    | .response r =>
      if r.status = 429 ∨ 500 ≤ r.status then
        if attempt < retries then
          let wait := match r.retryAfter with
            | some sec => sec * 1000
            | none => backoff
          let t := fetchGo resp retries fuel (attempt + 1) (backoff * 2) le
          ⟨t.calls + 1, wait :: t.waits, t.result⟩
        else ⟨1, [], .failure (.httpErr r.status)⟩
      else if 200 ≤ r.status ∧ r.status < 300 then
        ⟨1, [], .success r⟩
      else
        if attempt < retries then
          let t := fetchGo resp retries fuel (attempt + 1) (backoff * 2)
            (some (.httpErr r.status))
          ⟨t.calls + 1, backoff :: t.waits, t.result⟩
        else ⟨1, [], .failure (.httpErr r.status)⟩

/-- fetchWithRetry of ingest/socrata.ts (the retries argument defaults
to MAX_RETRIES at every call site in the source). -/
def fetchWithRetry (resp : Nat → AttemptOutcome) (retries : Nat) :
    RetryTrace :=
  fetchGo resp retries (retries + 1) 0 INITIAL_BACKOFF_MS none

/-- The exponential backoff wait sequence: n sleeps starting at b and
doubling each time. -/
def backoffSeq (b : Nat) : Nat → List Nat
  | 0 => []
  | n + 1 => b :: backoffSeq (b * 2) n

/-- response.ok of the host fetch: status in the 2xx range. -/
def isOkOutcome : AttemptOutcome → Bool
  | .netError _ => false
  | .response r => decide (200 ≤ r.status ∧ r.status < 300)

/-- The error the source surfaces for a failed attempt: the caught
network error, or the HTTP status wrapped in a thrown error. -/
def errOf : AttemptOutcome → FetchErr
  | .netError m => .netErr m
  | .response r => .httpErr r.status

theorem fetchGo_const_nonretryable (s : Nat) (ra : Option Nat)
    (h429 : s ≠ 429) (h5xx : s < 500) (hok : ¬(200 ≤ s ∧ s < 300)) :
    ∀ fuel resp retries attempt backoff le,
      (∀ i, attempt ≤ i → i ≤ retries → resp i = .response ⟨s, ra⟩) →
      attempt + fuel = retries + 1 → attempt ≤ retries →
      fetchGo resp retries fuel attempt backoff le =
        ⟨fuel, backoffSeq backoff (fuel - 1), .failure (.httpErr s)⟩ := by
  have hcond : ¬(s = 429 ∨ 500 ≤ s) := by omega
  intro fuel
  induction fuel with
  | zero =>
    intro resp retries attempt backoff le hresp hn hle
    exact absurd hn (by omega)
  | succ fuel ih =>
    intro resp retries attempt backoff le hresp hn hle
    rw [fetchGo, hresp attempt le_rfl hle]
    simp only [if_neg hcond, if_neg hok]
    by_cases hatt : attempt < retries
    · rw [if_pos hatt,
        ih resp retries (attempt + 1) (backoff * 2) (some (.httpErr s))
          (fun i hi hi' => hresp i (by omega) hi') (by omega) (by omega)]
      cases fuel with
      | zero => exact absurd hn (by omega)
      | succ f => simp [backoffSeq]
    · rw [if_neg hatt]
      have hf0 : fuel = 0 := by omega
      subst hf0
      simp [backoffSeq]

/-- C1 counterexample: with every attempt answering HTTP 404 (neither
2xx, nor 429, nor 5xx) and the default retry budget, fetchWithRetry does
not fail immediately: it performs 6 fetch calls and 5 exponential
backoff waits before surfacing the status. -/
theorem nonretryable_not_immediate :
    (fetchWithRetry (fun _ => .response ⟨404, none⟩) MAX_RETRIES).calls = 6 ∧
    (fetchWithRetry (fun _ => .response ⟨404, none⟩) MAX_RETRIES).waits =
      [1000, 2000, 4000, 8000, 16000] ∧
    (fetchWithRetry (fun _ => .response ⟨404, none⟩) MAX_RETRIES).result =
      .failure (.httpErr 404) := by
  decide

/-- C1 amended: a response status that is neither 2xx nor 429 nor 5xx is
thrown as an HTTP error inside the try block, caught by the handler
meant for network errors, and retried with the exponential backoff
schedule; only after the full budget of retries + 1 attempts does the
call fail, surfacing that status. -/
theorem nonretryable_retried_until_exhaustion (resp : Nat → AttemptOutcome)
    (retries s : Nat) (ra : Option Nat)
    (hresp : ∀ i, i ≤ retries → resp i = .response ⟨s, ra⟩)
    (h429 : s ≠ 429) (h5xx : s < 500) (hok : ¬(200 ≤ s ∧ s < 300)) :
    fetchWithRetry resp retries =
      ⟨retries + 1, backoffSeq INITIAL_BACKOFF_MS retries,
        .failure (.httpErr s)⟩ := by
  have h := fetchGo_const_nonretryable s ra h429 h5xx hok (retries + 1)
    resp retries 0 INITIAL_BACKOFF_MS none (fun i _ hi => hresp i hi)
    (by omega) (by omega)
  unfold fetchWithRetry
  simpa using h

theorem nonretryable_retried_until_exhaustion_witness :
    fetchWithRetry (fun _ => .response ⟨404, none⟩) 2 =
      ⟨3, [1000, 2000], .failure (.httpErr 404)⟩ := by
  have h := nonretryable_retried_until_exhaustion
    (fun _ => .response ⟨404, none⟩) 2 404 none (fun _ _ => rfl)
    (by decide) (by decide) (by decide)
  rw [h]
  decide

theorem fetchGo_calls_le :
    ∀ fuel resp retries attempt backoff le,
      (fetchGo resp retries fuel attempt backoff le).calls ≤ fuel := by
  intro fuel
  induction fuel with
  | zero => intro resp retries attempt backoff le; simp [fetchGo]
  | succ fuel ih =>
    intro resp retries attempt backoff le
    rw [fetchGo]
    cases resp attempt with
    | netError m =>
      by_cases hatt : attempt < retries
      · simp only [if_pos hatt]
        have := ih resp retries (attempt + 1) (backoff * 2)
          (some (.netErr m))
        omega
      · simp [if_neg hatt]
    | response r =>
      by_cases hretry : r.status = 429 ∨ 500 ≤ r.status
      · by_cases hatt : attempt < retries
        · simp only [if_pos hretry, if_pos hatt]
          have := ih resp retries (attempt + 1) (backoff * 2) le
          omega
        · simp [if_pos hretry, if_neg hatt]
      · by_cases hok : 200 ≤ r.status ∧ r.status < 300
        · simp [if_neg hretry, if_pos hok]
        · by_cases hatt : attempt < retries
          · simp only [if_neg hretry, if_neg hok, if_pos hatt]
            have := ih resp retries (attempt + 1) (backoff * 2)
              (some (.httpErr r.status))
            omega
          · simp [if_neg hretry, if_neg hok, if_neg hatt]

theorem fetchGo_exhaust :
    ∀ fuel resp retries attempt backoff le,
      attempt + fuel = retries + 1 → attempt ≤ retries →
      (∀ i, attempt ≤ i → i ≤ retries → isOkOutcome (resp i) = false) →
      (fetchGo resp retries fuel attempt backoff le).result =
        .failure (errOf (resp retries)) := by
  intro fuel
  induction fuel with
  | zero =>
    intro resp retries attempt backoff le hn hle hbad
    exact absurd hn (by omega)
  | succ fuel ih =>
    intro resp retries attempt backoff le hn hle hbad
    rw [fetchGo]
    by_cases hatt : attempt < retries
    · have hbad' : ∀ i, attempt + 1 ≤ i → i ≤ retries →
          isOkOutcome (resp i) = false :=
        fun i hi hi' => hbad i (by omega) hi'
      have hrec := ih resp retries (attempt + 1) (backoff * 2)
      cases hr : resp attempt with
      | netError m =>
        simp only [if_pos hatt]
        exact hrec (some (.netErr m)) (by omega) (by omega) hbad'
      | response r =>
        have hnotok : ¬(200 ≤ r.status ∧ r.status < 300) := by
          have := hbad attempt le_rfl (by omega)
          rw [hr] at this
          simpa [isOkOutcome] using this
        by_cases hretry : r.status = 429 ∨ 500 ≤ r.status
        · simp only [if_pos hretry, if_pos hatt]
          exact hrec le (by omega) (by omega) hbad'
        · simp only [if_neg hretry, if_neg hnotok, if_pos hatt]
          exact hrec (some (.httpErr r.status)) (by omega) (by omega) hbad'
    · have heq : attempt = retries := by omega
      subst heq
      cases hr : resp attempt with
      | netError m => simp [if_neg hatt, errOf, hr]
      | response r =>
        have hnotok : ¬(200 ≤ r.status ∧ r.status < 300) := by
          have := hbad attempt le_rfl le_rfl
          rw [hr] at this
          simpa [isOkOutcome] using this
        by_cases hretry : r.status = 429 ∨ 500 ≤ r.status
        · simp [if_pos hretry, if_neg hatt, errOf, hr]
        · simp [if_neg hretry, if_neg hnotok, if_neg hatt, errOf, hr]

/-- C2 counterexample: with the default configuration (MAX_RETRIES = 5)
and every attempt answering HTTP 500, fetchWithRetry performs 6 HTTP
attempts, not at most 5: the loop runs attempt = 0 .. retries inclusive,
so the budget is retries + 1 attempts. -/
theorem attempt_count_exceeds_five :
    ¬((fetchWithRetry (fun _ => .response ⟨500, none⟩) MAX_RETRIES).calls ≤ 5)
      ∧
    (fetchWithRetry (fun _ => .response ⟨500, none⟩) MAX_RETRIES).calls = 6
      := by
  decide

/-- C2 amended: fetchWithRetry makes at most retries + 1 HTTP attempts
(6 with the default MAX_RETRIES = 5), and when every attempt in the
budget fails the call surfaces the error observed on the last attempt. -/
theorem retry_budget_bound (resp : Nat → AttemptOutcome) (retries : Nat) :
    (fetchWithRetry resp retries).calls ≤ retries + 1 ∧
    ((∀ i, i ≤ retries → isOkOutcome (resp i) = false) →
      (fetchWithRetry resp retries).result =
        .failure (errOf (resp retries))) := by
  constructor
  · exact fetchGo_calls_le (retries + 1) resp retries 0 INITIAL_BACKOFF_MS
      none
  · intro hbad
    exact fetchGo_exhaust (retries + 1) resp retries 0 INITIAL_BACKOFF_MS
      none (by omega) (by omega) (fun i _ hi => hbad i hi)

theorem retry_budget_bound_witness :
    (fetchWithRetry (fun _ => .netError "reset") 1).calls ≤ 2 ∧
    (fetchWithRetry (fun _ => .netError "reset") 1).result =
      .failure (.netErr "reset") := by
  refine ⟨(retry_budget_bound (fun _ => .netError "reset") 1).1, ?_⟩
  exact (retry_budget_bound (fun _ => .netError "reset") 1).2
    (fun i _ => rfl)

/-- C7: when the first attempt answers with a retryable status (429 or
5xx) carrying a numeric Retry-After of sec seconds and at least one
retry remains, the wait before the next attempt is sec * 1000
milliseconds, taken from the header rather than from the computed
exponential backoff. -/
theorem retry_after_honored (resp : Nat → AttemptOutcome) (retries : Nat)
    (r : Resp) (sec : Nat) (hretries : 0 < retries)
    (h0 : resp 0 = .response r) (hra : r.retryAfter = some sec)
    (hretry : r.status = 429 ∨ 500 ≤ r.status) :
    (fetchWithRetry resp retries).waits.head? = some (sec * 1000) := by
  unfold fetchWithRetry
  rw [fetchGo, h0]
  simp only [if_pos hretry, if_pos hretries, hra]
  rfl

/-- C7 witness: HTTP 429 with Retry-After 2 waits 2000 ms before the
retry (and not the initial backoff of 1000 ms). -/
theorem retry_after_honored_witness :
    (fetchWithRetry
      (fun n => if n = 0 then .response ⟨429, some 2⟩
                else .response ⟨200, none⟩) MAX_RETRIES).waits.head? =
      some 2000 := by
  have h := retry_after_honored
    (fun n => if n = 0 then .response ⟨429, some 2⟩
              else .response ⟨200, none⟩) MAX_RETRIES ⟨429, some 2⟩ 2
    (by decide) rfl rfl (Or.inl rfl)
  simpa using h
/-! ## Page sequencer (backfillPages / incrementalPages in
ingest/socrata.ts)

Both generators run the same loop; they differ only in the URL builder
(buildBackfillUrl orders by the stable row id, buildIncrementalUrl
orders by the update timestamp and filters past the cursor).  The
composition of the URL builder with fetchPage is abstracted as the
environment parameter api, mapping a request offset to the rows the API
answers (or a fetch error).  The structural fuel argument bounds the
observed prefix of the loop; every theorem quantifies over it. -/

structure PageTrace where
  /-- offset and returned row count of every fetch request, in order -/
  requests : List (Nat × Nat)
  /-- the pages yielded to the consumer, in order -/
  yields : List (List Raw)
  /-- error propagated out of the failing fetch, if any -/
  err : Option FetchErr
deriving DecidableEq, Repr

/-- The shared pagination loop: request at the current offset; a page of
zero rows stops without yielding; a full page (PAGE_SIZE rows) is
yielded and the loop continues at offset + page.length after the polite
delay; a short nonempty page is yielded and stops the loop. -/
def pagesGo (api : Nat → Except FetchErr (List Raw)) :
    Nat → Nat → PageTrace
  | 0, _ => ⟨[], [], none⟩
  | fuel + 1, offset =>
    match api offset with
    | .error e => ⟨[], [], some e⟩
    | .ok page =>
      if page.length = 0 then ⟨[(offset, page.length)], [], none⟩
      else if page.length = PAGE_SIZE then
        let t := pagesGo api fuel (offset + page.length)
        ⟨(offset, page.length) :: t.requests, page :: t.yields, t.err⟩
      else ⟨[(offset, page.length)], [page], none⟩

/-- backfillPages of ingest/socrata.ts: the pagination loop started at
offset zero against the backfill URL (ordered by the stable row id). -/
def backfillPagesTrace (api : Nat → Except FetchErr (List Raw))
    (fuel : Nat) : PageTrace :=
  pagesGo api fuel 0

/-- incrementalPages of ingest/socrata.ts: the pagination loop started
at offset zero against the incremental URL for the given cursor. -/
def incrementalPagesTrace (api : String → Nat → Except FetchErr (List Raw))
    (cursor : String) (fuel : Nat) : PageTrace :=
  pagesGo (api cursor) fuel 0

theorem pagesGo_head_offset (api : Nat → Except FetchErr (List Raw))
    (fuel offset : Nat) :
    ((pagesGo api fuel offset).requests.head?.getD (offset, 0)).1 =
      offset := by
  cases fuel with
  | zero => rfl
  | succ fuel =>
    rw [pagesGo]
    cases api offset with
    | error e => rfl
    | ok page =>
      dsimp only
      by_cases h0 : page.length = 0
      · rw [if_pos h0]
        rfl
      · by_cases hfull : page.length = PAGE_SIZE
        · rw [if_neg h0, if_pos hfull]
          rfl
        · rw [if_neg h0, if_neg hfull]
          rfl

theorem pagesGo_chain (api : Nat → Except FetchErr (List Raw)) :
    ∀ fuel offset,
      List.Chain' (fun a b => b.1 = a.1 + a.2)
        (pagesGo api fuel offset).requests := by
  intro fuel
  induction fuel with
  | zero => intro offset; simp [pagesGo]
  | succ fuel ih =>
    intro offset
    rw [pagesGo]
    cases api offset with
    | error e => simp
    | ok page =>
      dsimp only
      by_cases h0 : page.length = 0
      · rw [if_pos h0]
        simp
      · by_cases hfull : page.length = PAGE_SIZE
        · rw [if_neg h0, if_pos hfull]
          show List.Chain' (fun a b => b.1 = a.1 + a.2)
            ((offset, page.length) ::
              (pagesGo api fuel (offset + page.length)).requests)
          rw [List.chain'_cons']
          refine ⟨?_, ih (offset + page.length)⟩
          intro b hb
          have hh := pagesGo_head_offset api fuel (offset + page.length)
          rw [hb] at hh
          simpa using hh
        · rw [if_neg h0, if_neg hfull]
          simp

theorem pagesGo_dropLast_full (api : Nat → Except FetchErr (List Raw)) :
    ∀ fuel offset,
      (pagesGo api fuel offset).requests.dropLast.all
        (fun q => q.2 == PAGE_SIZE) = true := by
  intro fuel
  induction fuel with
  | zero => intro offset; rfl
  | succ fuel ih =>
    intro offset
    rw [pagesGo]
    cases api offset with
    | error e => rfl
    | ok page =>
      dsimp only
      by_cases h0 : page.length = 0
      · rw [if_pos h0]
        rfl
      · by_cases hfull : page.length = PAGE_SIZE
        · rw [if_neg h0, if_pos hfull]
          show (((offset, page.length) ::
            (pagesGo api fuel (offset + page.length)).requests).dropLast.all
              (fun q => q.2 == PAGE_SIZE)) = true
          cases hr : (pagesGo api fuel (offset + page.length)).requests with
          | nil => simp
          | cons q qs =>
            have hrec := ih (offset + page.length)
            rw [hr] at hrec
            simp [List.dropLast_cons₂, hfull, hrec]
        · rw [if_neg h0, if_neg hfull]
          rfl

/-- The API of the C5 scenario: exactly three pages of 1000, 1000 and
250 rows. -/
def apiThreePages : Nat → Except FetchErr (List Raw) := fun offset =>
  if offset = 0 then .ok (List.replicate 1000 [("summons_number", "1")])
  else if offset = 1000 then
    .ok (List.replicate 1000 [("summons_number", "1")])
  else if offset = 2000 then
    .ok (List.replicate 250 [("summons_number", "1")])
  else .ok []

set_option maxRecDepth 40000 in
/-- C5: backfillPages requests offsets starting at the initial offset
zero and increasing by the row count of the preceding page; every
request except the last one was preceded by a full page (so no request
follows a short or empty page); and for an API answering pages of 1000,
1000 and 250 rows the requested offsets are exactly 0, 1000, 2000 with
no fourth request. -/
theorem backfill_offset_sequence :
    (∀ api fuel offset,
      List.Chain' (fun a b => b.1 = a.1 + a.2)
        (pagesGo api fuel offset).requests ∧
      (pagesGo api fuel offset).requests.dropLast.all
        (fun q => q.2 == PAGE_SIZE) = true ∧
      ((pagesGo api fuel offset).requests.head?.getD (offset, 0)).1 =
        offset) ∧
    (backfillPagesTrace apiThreePages 10).requests =
      [(0, 1000), (1000, 1000), (2000, 250)] := by
  refine ⟨fun api fuel offset => ⟨pagesGo_chain api fuel offset,
    pagesGo_dropLast_full api fuel offset,
    pagesGo_head_offset api fuel offset⟩, ?_⟩
  decide

theorem pagesGo_yields_nonempty (api : Nat → Except FetchErr (List Raw)) :
    ∀ fuel offset p, p ∈ (pagesGo api fuel offset).yields → p ≠ [] := by
  intro fuel
  induction fuel with
  | zero => intro offset p hp; simp [pagesGo] at hp
  | succ fuel ih =>
    intro offset p hp
    rw [pagesGo] at hp
    cases hapi : api offset with
    | error e =>
      rw [hapi] at hp
      simp at hp
    | ok page =>
      rw [hapi] at hp
      dsimp only at hp
      by_cases h0 : page.length = 0
      · rw [if_pos h0] at hp
        simp at hp
      · by_cases hfull : page.length = PAGE_SIZE
        · rw [if_neg h0, if_pos hfull] at hp
          have hp' : p ∈ page ::
              (pagesGo api fuel (offset + page.length)).yields := hp
          rcases List.mem_cons.mp hp' with hq | hq
          · subst hq
            intro hnil
            exact h0 (by simp [hnil])
          · exact ih (offset + page.length) p hq
        · rw [if_neg h0, if_neg hfull] at hp
          have hp' : p ∈ [page] := hp
          rw [List.mem_singleton] at hp'
          subst hp'
          intro hnil
          exact h0 (by simp [hnil])

/-- C10: every page yielded by backfillPages and by incrementalPages is
nonempty; a fetch answering zero rows terminates the sequence and is
never yielded to the consumer. -/
theorem yielded_page_nonempty (api : Nat → Except FetchErr (List Raw))
    (api2 : String → Nat → Except FetchErr (List Raw)) (cursor : String)
    (fuel : Nat) (p q : List Raw)
    (hb : p ∈ (backfillPagesTrace api fuel).yields)
    (hi : q ∈ (incrementalPagesTrace api2 cursor fuel).yields) :
    p ≠ [] ∧ q ≠ [] :=
  ⟨pagesGo_yields_nonempty api fuel 0 p hb,
   pagesGo_yields_nonempty (api2 cursor) fuel 0 q hi⟩

theorem yielded_page_nonempty_witness :
    ([[("summons_number", "1")]] : List Raw) ∈
      (backfillPagesTrace (fun _ => .ok [[("summons_number", "1")]])
        5).yields ∧
    ([[("summons_number", "1")]] : List Raw) ≠ [] := by
  have hmem : ([[("summons_number", "1")]] : List Raw) ∈
      (backfillPagesTrace (fun _ => .ok [[("summons_number", "1")]])
        5).yields := by decide
  have hmem2 : ([[("summons_number", "1")]] : List Raw) ∈
      (incrementalPagesTrace (fun _ _ => .ok [[("summons_number", "1")]])
        "c" 5).yields := by decide
  refine ⟨hmem, ?_⟩
  exact (yielded_page_nonempty (fun _ => .ok [[("summons_number", "1")]])
    (fun _ _ => .ok [[("summons_number", "1")]]) "c" 5 _ _ hmem hmem2).1

/-! ## Batch writer (buildUpsertQuery / upsertTickets in ingest/db.ts)

The parking_ticket table is modelled as a list of canonical rows, unique
by summons_number (the unique index backing ON CONFLICT).  One VALUES
tuple of the generated statement inserts the row if its key is absent
and otherwise overwrites all non-key fields exactly when the stored
soda_updated_at IS DISTINCT FROM the incoming one; the reported row
count counts inserted plus updated tuples, not suppressed no-ops.
Timestamps are modelled by their string representations. -/

abbrev Table := List ParkingTicketRow

def findRow (t : Table) (k : String) : Option ParkingTicketRow :=
  t.find? (fun r => r.summons_number == k)

def replaceRow (t : Table) (k : String) (nr : ParkingTicketRow) : Table :=
  t.map (fun r => if r.summons_number == k then nr else r)

/-- Effect of a single VALUES tuple under
ON CONFLICT (summons_number) DO UPDATE SET (all non-key fields)
WHERE parking_ticket.soda_updated_at IS DISTINCT FROM
EXCLUDED.soda_updated_at. -/
def applyUpsert (t : Table) (row : ParkingTicketRow) : Table × Nat :=
  match findRow t row.summons_number with
  | none => (t ++ [row], 1)
  | some stored =>
    if stored.soda_updated_at ≠ row.soda_updated_at then
      (replaceRow t row.summons_number row, 1)
    else (t, 0)

/-- One batch statement built by buildUpsertQuery: its VALUES tuples are
applied in order; the result is the new table and the rowCount the
driver reports. -/
def upsertBatch (t : Table) : List ParkingTicketRow → Table × Nat
  | [] => (t, 0)
  | row :: rest =>
    ((upsertBatch (applyUpsert t row).1 rest).1,
     (applyUpsert t row).2 + (upsertBatch (applyUpsert t row).1 rest).2)

/-- The batching loop of upsertTickets: slices of BATCH_INSERT_SIZE rows
are written sequentially and the row counts summed.  The structural fuel
counts loop iterations; each iteration consumes at least one row, so
fuel = rows.length always suffices and the fuel-zero branch with a
nonempty remainder is unreachable from upsertTickets. -/
def upsertChunksGo : Nat → Table → List ParkingTicketRow → Table × Nat
  | _, t, [] => (t, 0)
  | 0, t, _ :: _ => (t, 0)
  | fuel + 1, t, row :: rest =>
    ((upsertChunksGo fuel
        (upsertBatch t ((row :: rest).take BATCH_INSERT_SIZE)).1
        ((row :: rest).drop BATCH_INSERT_SIZE)).1,
     (upsertBatch t ((row :: rest).take BATCH_INSERT_SIZE)).2 +
       (upsertChunksGo fuel
         (upsertBatch t ((row :: rest).take BATCH_INSERT_SIZE)).1
         ((row :: rest).drop BATCH_INSERT_SIZE)).2)

/-- upsertTickets of ingest/db.ts: write the rows in batches of
BATCH_INSERT_SIZE, returning the new table and the total number of rows
actually changed. -/
def upsertTickets (t : Table) (rows : List ParkingTicketRow) :
    Table × Nat :=
  upsertChunksGo rows.length t rows

theorem upsertBatch_append (l1 l2 : List ParkingTicketRow) :
    ∀ t, upsertBatch t (l1 ++ l2) =
      ((upsertBatch (upsertBatch t l1).1 l2).1,
       (upsertBatch t l1).2 + (upsertBatch (upsertBatch t l1).1 l2).2) := by
  induction l1 with
  | nil => intro t; simp [upsertBatch]
  | cons row rest ih =>
    intro t
    rw [List.cons_append]
    show upsertBatch t (row :: (rest ++ l2)) = _
    rw [upsertBatch, ih (applyUpsert t row).1]
    rw [show upsertBatch t (row :: rest) =
      ((upsertBatch (applyUpsert t row).1 rest).1,
       (applyUpsert t row).2 + (upsertBatch (applyUpsert t row).1 rest).2)
      from rfl]
    simp [Nat.add_assoc]

theorem upsertChunksGo_eq_batch :
    ∀ fuel t rows, rows.length ≤ fuel →
      upsertChunksGo fuel t rows = upsertBatch t rows := by
  intro fuel
  induction fuel with
  | zero =>
    intro t rows hlen
    have : rows = [] := List.length_eq_zero.mp (by omega)
    subst this
    rfl
  | succ fuel ih =>
    intro t rows hlen
    cases rows with
    | nil => rfl
    | cons row rest =>
      rw [upsertChunksGo]
      have hsplit := List.take_append_drop BATCH_INSERT_SIZE (row :: rest)
      have hdrop : ((row :: rest).drop BATCH_INSERT_SIZE).length ≤ fuel := by
        rw [List.length_drop]
        simp only [List.length_cons] at hlen ⊢
        have hb : 1 ≤ BATCH_INSERT_SIZE := by decide
        omega
      rw [ih (upsertBatch t ((row :: rest).take BATCH_INSERT_SIZE)).1
        ((row :: rest).drop BATCH_INSERT_SIZE) hdrop]
      conv_rhs => rw [← hsplit]
      rw [upsertBatch_append]

theorem upsertTickets_eq_batch (t : Table) (rows : List ParkingTicketRow) :
    upsertTickets t rows = upsertBatch t rows :=
  upsertChunksGo_eq_batch rows.length t rows le_rfl

theorem findRow_nil (k : String) : findRow [] k = none := rfl

theorem findRow_cons (x : ParkingTicketRow) (l : Table) (k : String) :
    findRow (x :: l) k =
      if x.summons_number == k then some x else findRow l k := by
  unfold findRow
  cases h : x.summons_number == k <;> simp [List.find?_cons, h]

theorem findRow_append (t1 t2 : Table) (k : String) :
    findRow (t1 ++ t2) k = (findRow t1 k).or (findRow t2 k) := by
  unfold findRow
  rw [List.find?_append]

theorem replaceRow_cons (x : ParkingTicketRow) (l : Table) (k : String)
    (nr : ParkingTicketRow) :
    replaceRow (x :: l) k nr =
      (if x.summons_number == k then nr else x) :: replaceRow l k nr := by
  unfold replaceRow
  rw [List.map_cons]

theorem applyUpsert_of_none (t : Table) (row : ParkingTicketRow)
    (hf : findRow t row.summons_number = none) :
    applyUpsert t row = (t ++ [row], 1) := by
  unfold applyUpsert
  rw [hf]

theorem applyUpsert_of_some_diff (t : Table) (row s : ParkingTicketRow)
    (hf : findRow t row.summons_number = some s)
    (hupd : s.soda_updated_at ≠ row.soda_updated_at) :
    applyUpsert t row = (replaceRow t row.summons_number row, 1) := by
  unfold applyUpsert
  rw [hf]
  dsimp only
  rw [if_pos hupd]

theorem applyUpsert_noop (t : Table) (row s : ParkingTicketRow)
    (hf : findRow t row.summons_number = some s)
    (hupd : s.soda_updated_at = row.soda_updated_at) :
    applyUpsert t row = (t, 0) := by
  unfold applyUpsert
  rw [hf]
  dsimp only
  rw [if_neg (by simp [hupd])]

theorem findRow_replaceRow_ne (row : ParkingTicketRow) (k : String)
    (hne : k ≠ row.summons_number) :
    ∀ t : Table,
      findRow (replaceRow t row.summons_number row) k = findRow t k := by
  have hrow : (row.summons_number == k) = false := by
    rw [beq_eq_false_iff_ne]
    exact fun h => hne h.symm
  intro t
  induction t with
  | nil => rfl
  | cons r rest iht =>
    rw [replaceRow_cons, findRow_cons, findRow_cons]
    by_cases hr : (r.summons_number == row.summons_number) = true
    · have hrk : (r.summons_number == k) = false := by
        rw [beq_eq_false_iff_ne, eq_of_beq hr]
        exact fun h => hne h.symm
      rw [if_pos hr]
      simp [hrow, hrk, iht]
    · rw [if_neg hr]
      by_cases hrk : (r.summons_number == k) = true
      · simp [hrk]
      · have hrk' : (r.summons_number == k) = false := by
          revert hrk; cases r.summons_number == k <;> simp
        simp [hrk', iht]

theorem findRow_replaceRow_self (row : ParkingTicketRow)
    (s : ParkingTicketRow) :
    ∀ t : Table, findRow t row.summons_number = some s →
    findRow (replaceRow t row.summons_number row) row.summons_number =
      some row := by
  intro t
  induction t with
  | nil => intro hf; exact absurd hf (by simp [findRow_nil])
  | cons r rest iht =>
    intro hf
    rw [replaceRow_cons, findRow_cons]
    by_cases hr : (r.summons_number == row.summons_number) = true
    · rw [if_pos hr]
      simp
    · have hr' : (r.summons_number == row.summons_number) = false := by
        revert hr; cases r.summons_number == row.summons_number <;> simp
      rw [if_neg hr, hr']
      rw [findRow_cons, hr'] at hf
      simp only [Bool.false_eq_true, if_false] at hf ⊢
      exact iht hf

theorem findRow_applyUpsert_ne (t : Table) (row : ParkingTicketRow)
    (k : String) (hne : k ≠ row.summons_number) :
    findRow (applyUpsert t row).1 k = findRow t k := by
  have hrow : (row.summons_number == k) = false := by
    rw [beq_eq_false_iff_ne]
    exact fun h => hne h.symm
  cases hf : findRow t row.summons_number with
  | none =>
    rw [applyUpsert_of_none t row hf]
    show findRow (t ++ [row]) k = findRow t k
    rw [findRow_append, findRow_cons, findRow_nil]
    simp [hrow]
  | some stored =>
    by_cases hupd : stored.soda_updated_at ≠ row.soda_updated_at
    · rw [applyUpsert_of_some_diff t row stored hf hupd]
      exact findRow_replaceRow_ne row k hne t
    · rw [applyUpsert_noop t row stored hf (not_not.mp hupd)]

theorem findRow_applyUpsert_self (t : Table) (row : ParkingTicketRow) :
    ∃ r', findRow (applyUpsert t row).1 row.summons_number = some r' ∧
      r'.soda_updated_at = row.soda_updated_at := by
  cases hf : findRow t row.summons_number with
  | none =>
    refine ⟨row, ?_, rfl⟩
    rw [applyUpsert_of_none t row hf]
    show findRow (t ++ [row]) row.summons_number = some row
    rw [findRow_append, hf, findRow_cons, findRow_nil]
    simp
  | some stored =>
    by_cases hupd : stored.soda_updated_at ≠ row.soda_updated_at
    · rw [applyUpsert_of_some_diff t row stored hf hupd]
      exact ⟨row, findRow_replaceRow_self row stored t hf, rfl⟩
    · rw [applyUpsert_noop t row stored hf (not_not.mp hupd)]
      push_neg at hupd
      exact ⟨stored, hf, hupd⟩


theorem findRow_upsertBatch_ne (rows : List ParkingTicketRow) :
    ∀ t k, (∀ r ∈ rows, r.summons_number ≠ k) →
      findRow (upsertBatch t rows).1 k = findRow t k := by
  induction rows with
  | nil => intro t k _; rfl
  | cons row rest ih =>
    intro t k hk
    rw [upsertBatch]
    have h1 : findRow (upsertBatch (applyUpsert t row).1 rest).1 k =
        findRow (applyUpsert t row).1 k :=
      ih (applyUpsert t row).1 k (fun r hr => hk r (List.mem_cons_of_mem _ hr))
    have h2 : findRow (applyUpsert t row).1 k = findRow t k :=
      findRow_applyUpsert_ne t row k
        (fun he => hk row (List.mem_cons_self _ _) he.symm)
    simpa [h1] using h2

theorem findRow_upsertBatch_mem (rows : List ParkingTicketRow) :
    ∀ t, (rows.map (fun r => r.summons_number)).Nodup →
      ∀ r ∈ rows, ∃ r',
        findRow (upsertBatch t rows).1 r.summons_number = some r' ∧
        r'.soda_updated_at = r.soda_updated_at := by
  induction rows with
  | nil => intro t _ r hr; simp at hr
  | cons row rest ih =>
    intro t hnodup r hr
    have hnodup' : (rest.map (fun r => r.summons_number)).Nodup := by
      rw [List.map_cons, List.nodup_cons] at hnodup
      exact hnodup.2
    rcases List.mem_cons.mp hr with hr | hr
    · subst hr
      rw [upsertBatch]
      have hkeys : ∀ q ∈ rest, q.summons_number ≠ r.summons_number := by
        intro q hq he
        have hm : r.summons_number ∈ rest.map (fun x => x.summons_number) :=
          List.mem_map.mpr ⟨q, hq, he⟩
        rw [List.map_cons, List.nodup_cons] at hnodup
        exact hnodup.1 hm
      rcases findRow_applyUpsert_self t r with ⟨r', hfind, hupd⟩
      refine ⟨r', ?_, hupd⟩
      rw [findRow_upsertBatch_ne rest (applyUpsert t r).1 r.summons_number
        hkeys]
      exact hfind
    · rw [upsertBatch]
      exact ih (applyUpsert t row).1 hnodup' r hr

theorem upsertBatch_idempotent (rows : List ParkingTicketRow) :
    ∀ t, (rows.map (fun r => r.summons_number)).Nodup →
      upsertBatch (upsertBatch t rows).1 rows =
        ((upsertBatch t rows).1, 0) := by
  induction rows with
  | nil => intro t _; rfl
  | cons row rest ih =>
    intro t hnodup
    have hnodup' : (rest.map (fun r => r.summons_number)).Nodup := by
      rw [List.map_cons, List.nodup_cons] at hnodup
      exact hnodup.2
    have hkeys : ∀ q ∈ rest, q.summons_number ≠ row.summons_number := by
      intro q hq he
      have hm : row.summons_number ∈ rest.map (fun x => x.summons_number) :=
        List.mem_map.mpr ⟨q, hq, he⟩
      rw [List.map_cons, List.nodup_cons] at hnodup
      exact hnodup.1 hm
    have hT : (upsertBatch t (row :: rest)).1 =
        (upsertBatch (applyUpsert t row).1 rest).1 := by
      rw [upsertBatch]
    rcases findRow_applyUpsert_self t row with ⟨r', hfind, hupd⟩
    have hfindT : findRow (upsertBatch t (row :: rest)).1
        row.summons_number = some r' := by
      rw [hT, findRow_upsertBatch_ne rest (applyUpsert t row).1
        row.summons_number hkeys]
      exact hfind
    have hnoop : applyUpsert (upsertBatch t (row :: rest)).1 row =
        ((upsertBatch t (row :: rest)).1, 0) :=
      applyUpsert_noop _ row r' hfindT hupd
    conv_lhs => rw [upsertBatch]
    rw [hnoop]
    have hrest : upsertBatch (upsertBatch t (row :: rest)).1 rest =
        ((upsertBatch t (row :: rest)).1, 0) := by
      rw [hT]
      exact ih (applyUpsert t row).1 hnodup'
    rw [hrest]
    simp

/-- C4 amended: when the natural keys of the written records are
pairwise distinct, a second identical upsertTickets call is a true
no-op: it leaves every stored row unchanged and reports zero rows
changed (on conflict the non-key fields are overwritten only when the
incoming soda_updated_at differs from the stored one). -/
theorem upsert_idempotent (t : Table) (rows : List ParkingTicketRow)
    (hnodup : (rows.map (fun r => r.summons_number)).Nodup) :
    upsertTickets (upsertTickets t rows).1 rows =
      ((upsertTickets t rows).1, 0) := by
  simp only [upsertTickets_eq_batch]
  exact upsertBatch_idempotent rows t hnodup

/-- A minimal canonical row with the given key and source update
timestamp. -/
def mkRow (k upd : String) : ParkingTicketRow :=
  ⟨k, "nc67-uf89", none, none, none, none, none, none, none, none, none,
    none, none, none, none, some "rid", some "2024-01-01T00:00:00.000Z",
    some upd⟩

theorem upsert_idempotent_witness :
    upsertTickets
        (upsertTickets [] [mkRow "100" "2024-02-01T00:00:00.000Z"]).1
        [mkRow "100" "2024-02-01T00:00:00.000Z"] =
      ((upsertTickets [] [mkRow "100" "2024-02-01T00:00:00.000Z"]).1, 0) :=
  upsert_idempotent [] [mkRow "100" "2024-02-01T00:00:00.000Z"]
    (by decide)

theorem upsertBatch_all_noop (rows : List ParkingTicketRow) :
    ∀ t, (∀ r ∈ rows, ∃ s, findRow t r.summons_number = some s ∧
        s.soda_updated_at = r.soda_updated_at) →
      upsertBatch t rows = (t, 0) := by
  induction rows with
  | nil => intro t _; rfl
  | cons row rest ih =>
    intro t h
    rcases h row (List.mem_cons_self _ _) with ⟨s, hf, hupd⟩
    have hnoop := applyUpsert_noop t row s hf hupd
    have htail := ih t (fun r hr => h r (List.mem_cons_of_mem _ hr))
    rw [upsertBatch, hnoop]
    simp [htail]

/-! ### The C4 counterexample

A list of 501 canonical records: 500 rows with distinct keys (the key of
row i is the string of i + 1 letters a, so distinctness follows from the
lengths) followed by one more row that reuses the first key with a
different source update timestamp.  upsertTickets splits this input as
batches of 500 + 1, so the duplicate key lands in the second batch and
every batch statement still has internally distinct keys, as the unique
index requires. -/

def bigKey (i : Nat) : String := String.mk (List.replicate (i + 1) 'a')

def dupRowA (i : Nat) : ParkingTicketRow := mkRow (bigKey i) "u1"

def dupB : ParkingTicketRow := mkRow (bigKey 0) "u2"

def batchOne : List ParkingTicketRow := (List.range 500).map dupRowA

def dupKeyRows : List ParkingTicketRow := batchOne ++ [dupB]

theorem bigKey_injective : Function.Injective bigKey := by
  intro a b h
  have hdata : List.replicate (a + 1) 'a' = List.replicate (b + 1) 'a' :=
    congrArg String.data h
  have hlen := congrArg List.length hdata
  simp only [List.length_replicate] at hlen
  omega

theorem batchOne_keys_nodup :
    (batchOne.map (fun r => r.summons_number)).Nodup := by
  rw [batchOne, List.map_map]
  have heq : ((fun r : ParkingTicketRow => r.summons_number) ∘ dupRowA) =
      bigKey := by
    funext i
    rfl
  rw [heq]
  exact (List.nodup_range 500).map bigKey_injective

theorem batchOne_split :
    batchOne = dupRowA 0 :: (List.range 499).map (dupRowA ∘ Nat.succ) := by
  rw [batchOne, List.range_succ_eq_map, List.map_cons, List.map_map]

theorem dupRowA_key (i : Nat) : (dupRowA i).summons_number = bigKey i :=
  rfl

theorem dupB_key : dupB.summons_number = bigKey 0 := rfl

theorem findRow_firstPass (r : ParkingTicketRow) (hr : r ∈ batchOne) :
    ∃ s, findRow (upsertBatch [] batchOne).1 r.summons_number = some s ∧
      s.soda_updated_at = r.soda_updated_at :=
  findRow_upsertBatch_mem batchOne [] batchOne_keys_nodup r hr

/-- Processing dupKeyRows against a table that stores the dupB version
under the duplicate key and a u1 version under every other key of
batchOne changes exactly two rows: the duplicate key flips to u1 while
the first batch runs and back to u2 in the second batch; every other
key is an exact no-op. -/
theorem dupKeyRows_second_pass (T1 : Table)
    (hdup : findRow T1 dupB.summons_number = some dupB)
    (hother : ∀ i, 1 ≤ i → i < 500 →
      ∃ s, findRow T1 (bigKey i) = some s ∧
        s.soda_updated_at = some "u1") :
    (upsertBatch T1 dupKeyRows).2 = 2 := by
  have happ0 : applyUpsert T1 (dupRowA 0) =
      (replaceRow T1 (dupRowA 0).summons_number (dupRowA 0), 1) :=
    applyUpsert_of_some_diff T1 (dupRowA 0) dupB hdup (by decide)
  have hT2dup : findRow
      (replaceRow T1 (dupRowA 0).summons_number (dupRowA 0))
      (dupRowA 0).summons_number = some (dupRowA 0) :=
    findRow_replaceRow_self (dupRowA 0) dupB T1 hdup
  have htail : upsertBatch
      (replaceRow T1 (dupRowA 0).summons_number (dupRowA 0))
      ((List.range 499).map (dupRowA ∘ Nat.succ)) =
      (replaceRow T1 (dupRowA 0).summons_number (dupRowA 0), 0) := by
    apply upsertBatch_all_noop
    intro r hr
    rcases List.mem_map.mp hr with ⟨i, hi, hri⟩
    have hi' := List.mem_range.mp hi
    have hrkey : r.summons_number = bigKey (i + 1) := by
      rw [← hri]
      rfl
    have hne0 : bigKey (i + 1) ≠ (dupRowA 0).summons_number := by
      rw [dupRowA_key]
      intro h
      have := bigKey_injective h
      omega
    rcases hother (i + 1) (by omega) (by omega) with ⟨s, hfs, hus⟩
    refine ⟨s, ?_, ?_⟩
    · rw [hrkey,
        findRow_replaceRow_ne (dupRowA 0) (bigKey (i + 1)) hne0 T1]
      exact hfs
    · rw [hus, ← hri]
      rfl
  have hA2 : upsertBatch T1 batchOne =
      (replaceRow T1 (dupRowA 0).summons_number (dupRowA 0), 1) := by
    rw [batchOne_split, upsertBatch, happ0]
    simp [htail]
  have hB2 : applyUpsert
      (replaceRow T1 (dupRowA 0).summons_number (dupRowA 0)) dupB =
      (replaceRow (replaceRow T1 (dupRowA 0).summons_number (dupRowA 0))
        dupB.summons_number dupB, 1) :=
    applyUpsert_of_some_diff _ dupB (dupRowA 0) hT2dup (by decide)
  rw [dupKeyRows, upsertBatch_append, hA2]
  simp [upsertBatch, hB2]

/-- C4 counterexample: for the 501-record list dupKeyRows, whose
duplicate natural key crosses the batch boundary of 500, the second
identical upsertTickets call reports 2 changed rows, not 0: each call
first writes the u1 version over the stored u2 version and then u2 over
u1 again, so repeated delivery keeps changing rows. -/
theorem upsert_not_idempotent_across_batches :
    (upsertTickets (upsertTickets [] dupKeyRows).1 dupKeyRows).2 = 2 ∧
    (upsertTickets (upsertTickets [] dupKeyRows).1 dupKeyRows).2 ≠ 0 := by
  rcases findRow_firstPass (dupRowA 0)
    (by rw [batchOne_split]; exact List.mem_cons_self _ _) with
    ⟨s0, hfind0, hupd0⟩
  have hupd0' : s0.soda_updated_at ≠ dupB.soda_updated_at := by
    rw [hupd0]
    decide
  have happB : applyUpsert (upsertBatch [] batchOne).1 dupB =
      (replaceRow (upsertBatch [] batchOne).1 dupB.summons_number dupB,
        1) :=
    applyUpsert_of_some_diff _ dupB s0 hfind0 hupd0'
  have hT1eq : (upsertTickets [] dupKeyRows).1 =
      replaceRow (upsertBatch [] batchOne).1 dupB.summons_number dupB := by
    rw [upsertTickets_eq_batch, dupKeyRows, upsertBatch_append,
      upsertBatch, happB]
    generalize (upsertBatch [] batchOne).1 = X
    rfl
  have hdup : findRow
      (replaceRow (upsertBatch [] batchOne).1 dupB.summons_number dupB)
      dupB.summons_number = some dupB :=
    findRow_replaceRow_self dupB s0 (upsertBatch [] batchOne).1 hfind0
  have hother : ∀ i, 1 ≤ i → i < 500 →
      ∃ s, findRow
        (replaceRow (upsertBatch [] batchOne).1 dupB.summons_number dupB)
        (bigKey i) = some s ∧ s.soda_updated_at = some "u1" := by
    intro i h1 h2
    have hne : bigKey i ≠ dupB.summons_number := by
      rw [dupB_key]
      intro h
      have := bigKey_injective h
      omega
    rcases findRow_firstPass (dupRowA i)
      (List.mem_map.mpr ⟨i, List.mem_range.mpr h2, rfl⟩) with ⟨s, hfs, hus⟩
    refine ⟨s, ?_, ?_⟩
    · rw [findRow_replaceRow_ne dupB (bigKey i) hne]
      exact hfs
    · rw [hus]
      rfl
  have hmain := dupKeyRows_second_pass
    (replaceRow (upsertBatch [] batchOne).1 dupB.summons_number dupB)
    hdup hother
  rw [upsertTickets_eq_batch, hT1eq]
  exact ⟨hmain, by omega⟩

/-! ## Cursor store (getCursor / updateCursor in ingest/db.ts)

The ingest_cursor table is modelled as an association list of
dataset_id to last_soda_updated, unique by dataset_id (the primary key
backing ON CONFLICT).  The driver returns the stored timestamptz as a
host Date whose toISOString rendering is the isoOf parameter. -/

abbrev CursorTable := List (String × String)

def lookupCursor (t : CursorTable) (d : String) : Option String :=
  (t.find? (fun p => p.1 == d)).map (fun p => p.2)

def epochCursor : String := "1970-01-01T00:00:00Z"

/-- INSERT INTO ingest_cursor ... ON CONFLICT (dataset_id) DO NOTHING:
inserts only when the key is absent; a conflict is not an error. -/
def insertDoNothing (t : CursorTable) (d v : String) : CursorTable :=
  match lookupCursor t d with
  | some _ => t
  | none => t ++ [(d, v)]

/-- updateCursor of ingest/db.ts: INSERT ... ON CONFLICT (dataset_id)
DO UPDATE SET last_soda_updated = $2. -/
def updateCursorTable (t : CursorTable) (d v : String) : CursorTable :=
  match lookupCursor t d with
  | some _ => t.map (fun p => if p.1 == d then (d, v) else p)
  | none => t ++ [(d, v)]

/-- getCursor of ingest/db.ts run without interleaving: SELECT the
cursor row; if none exists, INSERT the epoch conflict-safely and return
the epoch constant; otherwise return the stored value rendered by
toISOString. -/
def getCursorRun (isoOf : String → String) (d : String)
    (t : CursorTable) : String × CursorTable :=
  match lookupCursor t d with
  | none => (epochCursor, insertDoNothing t d epochCursor)
  | some v => (isoOf v, t)

/-- An in-flight getCursor call: it has not yet run its SELECT, or it
observed an empty SELECT and still has to run its INSERT, or it has
returned. -/
inductive CursorPhase where
  | start
  | needInsert
  | done (ret : String)
deriving DecidableEq, Repr

def CursorPhase.isDone : CursorPhase → Bool
  | .done _ => true
  | _ => false

def CursorPhase.rank : CursorPhase → Nat
  | .start => 0
  | .needInsert => 1
  | .done _ => 2

/-- One atomic statement of an in-flight getCursor call against the
store; a finished call does not move. -/
def getCursorStep (isoOf : String → String) (d : String) :
    CursorPhase → CursorTable → CursorPhase × CursorTable
  | .start, t =>
    match lookupCursor t d with
    | some v => (.done (isoOf v), t)
    | none => (.needInsert, t)
  | .needInsert, t =>
    (.done epochCursor, insertDoNothing t d epochCursor)
  | .done r, t => (.done r, t)

/-- Two concurrent getCursor calls for the same dataset; the schedule
picks which call runs its next statement. -/
def runTwo (isoOf : String → String) (d : String) :
    List Bool → CursorPhase → CursorPhase → CursorTable →
    CursorPhase × CursorPhase × CursorTable
  | [], p1, p2, t => (p1, p2, t)
  | true :: rest, p1, p2, t =>
    runTwo isoOf d rest (getCursorStep isoOf d p1 t).1 p2
      (getCursorStep isoOf d p1 t).2
  | false :: rest, p1, p2, t =>
    runTwo isoOf d rest p1 (getCursorStep isoOf d p2 t).1
      (getCursorStep isoOf d p2 t).2

/-- Number of cursor rows stored for a dataset. -/
def countKey (t : CursorTable) (d : String) : Nat :=
  (t.filter (fun p => p.1 == d)).length

def countTrue : List Bool → Nat
  | [] => 0
  | b :: r => (if b then 1 else 0) + countTrue r

def countFalse : List Bool → Nat
  | [] => 0
  | b :: r => (if b then 0 else 1) + countFalse r

theorem lookupCursor_cons (q : String × String) (rest : CursorTable)
    (d : String) :
    lookupCursor (q :: rest) d =
      if q.1 == d then some q.2 else lookupCursor rest d := by
  unfold lookupCursor
  cases h : q.1 == d <;> simp [List.find?_cons, h]

theorem countKey_cons (q : String × String) (rest : CursorTable)
    (d : String) :
    countKey (q :: rest) d =
      (if q.1 == d then 1 else 0) + countKey rest d := by
  unfold countKey
  rw [List.filter_cons]
  cases h : q.1 == d
  · simp [h]
  · simp [h]
    omega

theorem lookup_none_countKey (d : String) :
    ∀ t : CursorTable, lookupCursor t d = none → countKey t d = 0 := by
  intro t
  induction t with
  | nil => intro _; rfl
  | cons q rest ih =>
    intro h
    rw [lookupCursor_cons] at h
    rw [countKey_cons]
    by_cases hq : (q.1 == d) = true
    · rw [if_pos hq] at h
      simp at h
    · rw [if_neg hq] at h
      rw [if_neg hq, ih h]

theorem lookup_some_countKey (d : String) (v : String) :
    ∀ t : CursorTable, lookupCursor t d = some v → 1 ≤ countKey t d := by
  intro t
  induction t with
  | nil => intro h; exact absurd h (by simp [lookupCursor])
  | cons q rest ih =>
    intro h
    rw [lookupCursor_cons] at h
    rw [countKey_cons]
    by_cases hq : (q.1 == d) = true
    · rw [if_pos hq]
      omega
    · rw [if_neg hq] at h
      rw [if_neg hq]
      have := ih h
      omega

theorem countKey_append_self (t : CursorTable) (d v : String) :
    countKey (t ++ [(d, v)]) d = countKey t d + 1 := by
  unfold countKey
  rw [List.filter_append]
  simp

/-- Joint invariant of two in-flight getCursor calls: never more than
one cursor row for the dataset, and a finished call has seen exactly
one row persist. -/
def CursorInv (d : String) (p1 p2 : CursorPhase) (t : CursorTable) :
    Prop :=
  countKey t d ≤ 1 ∧
  (p1.isDone = true → countKey t d = 1) ∧
  (p2.isDone = true → countKey t d = 1)

theorem insertDoNothing_some (t : CursorTable) (d v w : String)
    (h : lookupCursor t d = some w) : insertDoNothing t d v = t := by
  unfold insertDoNothing
  rw [h]

theorem insertDoNothing_none (t : CursorTable) (d v : String)
    (h : lookupCursor t d = none) :
    insertDoNothing t d v = t ++ [(d, v)] := by
  unfold insertDoNothing
  rw [h]

theorem getCursorStep_start (isoOf : String → String) (d : String)
    (t : CursorTable) :
    getCursorStep isoOf d .start t =
      match lookupCursor t d with
      | some v => (.done (isoOf v), t)
      | none => (.needInsert, t) := rfl

theorem getCursorStep_needInsert (isoOf : String → String) (d : String)
    (t : CursorTable) :
    getCursorStep isoOf d .needInsert t =
      (.done epochCursor, insertDoNothing t d epochCursor) := rfl

theorem getCursorStep_done (isoOf : String → String) (d r : String)
    (t : CursorTable) :
    getCursorStep isoOf d (.done r) t = (.done r, t) := rfl

theorem getCursorStep_inv (isoOf : String → String) (d : String)
    (p1 p2 : CursorPhase) (t : CursorTable)
    (hinv : CursorInv d p1 p2 t) :
    CursorInv d (getCursorStep isoOf d p1 t).1 p2
      (getCursorStep isoOf d p1 t).2 := by
  obtain ⟨hle, h1, h2⟩ := hinv
  cases p1 with
  | start =>
    rw [getCursorStep_start]
    cases h : lookupCursor t d with
    | some v =>
      dsimp only
      have hge := lookup_some_countKey d v t h
      exact ⟨hle, fun _ => by omega, h2⟩
    | none =>
      dsimp only
      exact ⟨hle, by simp [CursorPhase.isDone], h2⟩
  | needInsert =>
    rw [getCursorStep_needInsert]
    dsimp only
    cases h : lookupCursor t d with
    | some v =>
      rw [insertDoNothing_some t d epochCursor v h]
      have hge := lookup_some_countKey d v t h
      exact ⟨hle, fun _ => by omega, fun _ => by omega⟩
    | none =>
      rw [insertDoNothing_none t d epochCursor h]
      have h0 := lookup_none_countKey d t h
      refine ⟨?_, fun _ => ?_, fun _ => ?_⟩ <;>
        rw [countKey_append_self] <;> omega
  | done r =>
    rw [getCursorStep_done]
    exact ⟨hle, h1, h2⟩

theorem getCursorStep_inv' (isoOf : String → String) (d : String)
    (p1 p2 : CursorPhase) (t : CursorTable)
    (hinv : CursorInv d p1 p2 t) :
    CursorInv d p1 (getCursorStep isoOf d p2 t).1
      (getCursorStep isoOf d p2 t).2 := by
  obtain ⟨hle, h1, h2⟩ := hinv
  have h := getCursorStep_inv isoOf d p2 p1 t ⟨hle, h2, h1⟩
  exact ⟨h.1, h.2.2, h.2.1⟩

theorem runTwo_inv (isoOf : String → String) (d : String) :
    ∀ sched p1 p2 t, CursorInv d p1 p2 t →
      CursorInv d (runTwo isoOf d sched p1 p2 t).1
        (runTwo isoOf d sched p1 p2 t).2.1
        (runTwo isoOf d sched p1 p2 t).2.2 := by
  intro sched
  induction sched with
  | nil => intro p1 p2 t h; exact h
  | cons b rest ih =>
    intro p1 p2 t h
    cases b with
    | true =>
      rw [runTwo]
      exact ih _ _ _ (getCursorStep_inv isoOf d p1 p2 t h)
    | false =>
      rw [runTwo]
      exact ih _ _ _ (getCursorStep_inv' isoOf d p1 p2 t h)

theorem getCursorStep_rank (isoOf : String → String) (d : String)
    (p : CursorPhase) (t : CursorTable) :
    min (p.rank + 1) 2 ≤ (getCursorStep isoOf d p t).1.rank := by
  cases p with
  | start =>
    rw [getCursorStep_start]
    cases lookupCursor t d with
    | some v => simp [CursorPhase.rank]
    | none => simp [CursorPhase.rank]
  | needInsert =>
    rw [getCursorStep_needInsert]
    simp [CursorPhase.rank]
  | done r =>
    rw [getCursorStep_done]
    simp [CursorPhase.rank]

theorem rank_two_isDone (p : CursorPhase) (h : 2 ≤ p.rank) :
    p.isDone = true := by
  cases p with
  | start => simp [CursorPhase.rank] at h
  | needInsert => simp [CursorPhase.rank] at h
  | done r => rfl

theorem rank_le_two (p : CursorPhase) : p.rank ≤ 2 := by
  cases p <;> simp [CursorPhase.rank]

theorem runTwo_done_left (isoOf : String → String) (d : String) :
    ∀ sched p1 p2 t, 2 ≤ p1.rank + countTrue sched →
      (runTwo isoOf d sched p1 p2 t).1.isDone = true := by
  intro sched
  induction sched with
  | nil =>
    intro p1 p2 t h
    exact rank_two_isDone p1 (by simpa [countTrue] using h)
  | cons b rest ih =>
    intro p1 p2 t h
    cases b with
    | true =>
      rw [runTwo]
      apply ih
      have hstep := getCursorStep_rank isoOf d p1 t
      have hle := rank_le_two p1
      simp [countTrue] at h
      omega
    | false =>
      rw [runTwo]
      apply ih
      simpa [countTrue] using h

theorem runTwo_done_right (isoOf : String → String) (d : String) :
    ∀ sched p1 p2 t, 2 ≤ p2.rank + countFalse sched →
      (runTwo isoOf d sched p1 p2 t).2.1.isDone = true := by
  intro sched
  induction sched with
  | nil =>
    intro p1 p2 t h
    exact rank_two_isDone p2 (by simpa [countFalse] using h)
  | cons b rest ih =>
    intro p1 p2 t h
    cases b with
    | true =>
      rw [runTwo]
      apply ih
      simpa [countFalse] using h
    | false =>
      rw [runTwo]
      apply ih
      have hstep := getCursorStep_rank isoOf d p2 t
      have hle := rank_le_two p2
      simp [countFalse] at h
      omega

/-- C8: for a dataset with no cursor row, getCursor returns the epoch
watermark and persists exactly one cursor row with a conflict-safe
insert; and under every interleaving of two concurrent calls for the
same dataset the store never holds more than one cursor row, and once
both calls have had two statement slots each, both have returned
(neither errors) and exactly one cursor row exists. -/
theorem cursor_epoch_init (isoOf : String → String) (d : String)
    (t0 : CursorTable) (sched : List Bool)
    (h0 : lookupCursor t0 d = none) :
    (getCursorRun isoOf d t0).1 = epochCursor ∧
    countKey (getCursorRun isoOf d t0).2 d = 1 ∧
    countKey (runTwo isoOf d sched .start .start t0).2.2 d ≤ 1 ∧
    (2 ≤ countTrue sched → 2 ≤ countFalse sched →
      (runTwo isoOf d sched .start .start t0).1.isDone = true ∧
      (runTwo isoOf d sched .start .start t0).2.1.isDone = true ∧
      countKey (runTwo isoOf d sched .start .start t0).2.2 d = 1) := by
  have hc0 := lookup_none_countKey d t0 h0
  have hinv0 : CursorInv d .start .start t0 :=
    ⟨by omega, by simp [CursorPhase.isDone], by simp [CursorPhase.isDone]⟩
  have hinv := runTwo_inv isoOf d sched .start .start t0 hinv0
  refine ⟨?_, ?_, hinv.1, ?_⟩
  · unfold getCursorRun
    rw [h0]
  · unfold getCursorRun
    rw [h0]
    dsimp only
    rw [insertDoNothing_none t0 d epochCursor h0, countKey_append_self]
    omega
  · intro ht hf
    have hd1 := runTwo_done_left isoOf d sched .start .start t0
      (by simpa [CursorPhase.rank] using ht)
    have hd2 := runTwo_done_right isoOf d sched .start .start t0
      (by simpa [CursorPhase.rank] using hf)
    exact ⟨hd1, hd2, hinv.2.1 hd1⟩

theorem cursor_epoch_init_witness :
    (getCursorRun id "pvqr-7yc4" []).1 = epochCursor ∧
    countKey (getCursorRun id "pvqr-7yc4" []).2 "pvqr-7yc4" = 1 ∧
    countKey (runTwo id "pvqr-7yc4" [true, true, false, false]
      .start .start []).2.2 "pvqr-7yc4" ≤ 1 ∧
    ((runTwo id "pvqr-7yc4" [true, true, false, false]
        .start .start []).1.isDone = true ∧
      (runTwo id "pvqr-7yc4" [true, true, false, false]
        .start .start []).2.1.isDone = true ∧
      countKey (runTwo id "pvqr-7yc4" [true, true, false, false]
        .start .start []).2.2 "pvqr-7yc4" = 1) := by
  have h := cursor_epoch_init id "pvqr-7yc4" []
    [true, true, false, false] rfl
  exact ⟨h.1, h.2.1, h.2.2.1, h.2.2.2 (by decide) (by decide)⟩

/-! ## getMaxUpdatedAt (ingest/db.ts) and runSync (ingest/run.ts) -/

/-- JavaScript comparison date > maxDate on Date objects: compares the
millisecond values when both dates are valid; any comparison involving
an invalid date (NaN) is false. -/
def jsGtDate : Option Int → Option Int → Bool
  | some a, some b => decide (b < a)
  | _, _ => false

/-- getMaxUpdatedAt of ingest/db.ts.  jsDateMs models new Date(s) for
the host (none is an invalid date); msToIso models Date.toISOString on
a valid date.  Rows with a falsy soda_updated_at are skipped; a null
maxDate yields null; if the final maxDate is an invalid date,
toISOString throws a RangeError, modelled as .error (). -/
def getMaxUpdatedAt (jsDateMs : String → Option Int)
    (msToIso : Int → String) (rows : List ParkingTicketRow) :
    Except Unit (Option String) :=
  if rows.isEmpty then .ok none
  else
    match rows.foldl (fun (md : Option (Option Int)) row =>
      match row.soda_updated_at with
      | none => md
      | some s =>
        if s == "" then md
        else
          match md with
          | none => some (jsDateMs s)
          | some m =>
            if jsGtDate (jsDateMs s) m then some (jsDateMs s)
            else some m) none with
    | none => .ok none
    | some none => .error ()
    | some (some ms) => .ok (some (msToIso ms))

/-- The running state of one runSync call across its page loop. -/
structure SyncState where
  table : Table
  maxUpdatedAt : Option String
  mappedCount : Nat
  totalRows : Nat
  totalUpserted : Nat
deriving DecidableEq, Repr

/-- One iteration of the page loop of runSync: map the raw rows, skip
the page entirely when nothing mapped, otherwise fold the page maximum
into the running maximum (the source compares the ISO strings with the
JavaScript string order, here the Lean string order, which agrees on
ASCII) and upsert the mapped rows. -/
def processPage (jsDate : String → Option String)
    (jsNumber : String → Option Int) (jsDateMs : String → Option Int)
    (msToIso : Int → String) (d : DatasetId) (st : SyncState)
    (page : List Raw) : Except Unit SyncState :=
  let ticketRows := mapPageRows jsDate jsNumber d page
  if ticketRows.isEmpty then .ok st
  else
    match getMaxUpdatedAt jsDateMs msToIso ticketRows with
    | .error e => .error e
    | .ok pageMax =>
      let newMax : Option String :=
        match pageMax, st.maxUpdatedAt with
        | some pm, none => some pm
        | some pm, some m => if m < pm then some pm else some m
        | none, m => m
      .ok ⟨(upsertTickets st.table ticketRows).1, newMax,
        st.mappedCount + ticketRows.length,
        st.totalRows + page.length,
        st.totalUpserted + (upsertTickets st.table ticketRows).2⟩

/-- The page loop of runSync: pages are processed in order; a thrown
error stops the loop (the remaining pages are never requested). -/
def processPages (jsDate : String → Option String)
    (jsNumber : String → Option Int) (jsDateMs : String → Option Int)
    (msToIso : Int → String) (d : DatasetId) :
    SyncState → List (List Raw) → SyncState × Option Unit
  | st, [] => (st, none)
  | st, p :: ps =>
    match processPage jsDate jsNumber jsDateMs msToIso d st p with
    | .error e => (st, some e)
    | .ok st1 => processPages jsDate jsNumber jsDateMs msToIso d st1 ps

/-- The observable outcome of one runSync call. -/
structure SyncRunResult where
  success : Bool
  /-- the arguments of the updateCursor calls made, in order -/
  cursorWrites : List String
  mappedCount : Nat
  cursorTableAfter : CursorTable
  tableAfter : Table
deriving DecidableEq, Repr

/-- The tail of runSync after the page loop: a fetch error or a thrown
RangeError fails the run with no cursor write; on success the cursor is
written exactly when the running maximum is non-null. -/
def syncOutcome (pr : SyncState × Option Unit) (ferr : Option FetchErr)
    (ct1 : CursorTable) (d : DatasetId) : SyncRunResult :=
  match pr.2 with
  | some _ => ⟨false, [], pr.1.mappedCount, ct1, pr.1.table⟩
  | none =>
    match ferr with
    | some _ => ⟨false, [], pr.1.mappedCount, ct1, pr.1.table⟩
    | none =>
      match pr.1.maxUpdatedAt with
      | some m => ⟨true, [m], pr.1.mappedCount,
          updateCursorTable ct1 d.key m, pr.1.table⟩
      | none => ⟨true, [], pr.1.mappedCount, ct1, pr.1.table⟩

/-- runSync of ingest/run.ts: read or initialize the cursor, page
through incrementalPages from it, map and upsert each page while
tracking the running maximum soda_updated_at, and update the cursor at
the end exactly when a maximum was observed.  The incremental API for
a fixed dataset is the parameter api (cursor, offset to rows). -/
def runSync (jsDate : String → Option String)
    (jsNumber : String → Option Int) (jsDateMs : String → Option Int)
    (msToIso : Int → String) (isoOf : String → String) (d : DatasetId)
    (api : String → Nat → Except FetchErr (List Raw)) (fuel : Nat)
    (ct : CursorTable) (table : Table) : SyncRunResult :=
  syncOutcome
    (processPages jsDate jsNumber jsDateMs msToIso d
      ⟨table, none, 0, 0, 0⟩
      (incrementalPagesTrace api (getCursorRun isoOf d.key ct).1
        fuel).yields)
    (incrementalPagesTrace api (getCursorRun isoOf d.key ct).1 fuel).err
    (getCursorRun isoOf d.key ct).2 d

/-- A state whose running maximum is set has mapped at least one
record. -/
def MappedInv (st : SyncState) : Prop :=
  st.maxUpdatedAt.isSome = true → 1 ≤ st.mappedCount

theorem processPage_inv (jsDate : String → Option String)
    (jsNumber : String → Option Int) (jsDateMs : String → Option Int)
    (msToIso : Int → String) (d : DatasetId) (st st1 : SyncState)
    (page : List Raw)
    (h : processPage jsDate jsNumber jsDateMs msToIso d st page =
      .ok st1)
    (hst : MappedInv st) : MappedInv st1 := by
  unfold processPage at h
  by_cases he : (mapPageRows jsDate jsNumber d page).isEmpty = true
  · rw [if_pos he] at h
    cases h
    exact hst
  · rw [if_neg he] at h
    cases hm : getMaxUpdatedAt jsDateMs msToIso
        (mapPageRows jsDate jsNumber d page) with
    | error e => rw [hm] at h; exact absurd h (by simp)
    | ok pageMax =>
      rw [hm] at h
      dsimp only at h
      cases h
      intro hsome
      cases pageMax with
      | some pm =>
        have hlen : 1 ≤ (mapPageRows jsDate jsNumber d page).length := by
          cases hq : mapPageRows jsDate jsNumber d page with
          | nil => rw [hq] at he; simp at he
          | cons a l => simp [hq]
        simp only [SyncState.mappedCount]
        omega
      | none =>
        cases hmax : st.maxUpdatedAt with
        | none => simp [hmax] at hsome
        | some m =>
          have := hst (by simp [hmax])
          simp only [SyncState.mappedCount]
          omega

theorem processPages_inv (jsDate : String → Option String)
    (jsNumber : String → Option Int) (jsDateMs : String → Option Int)
    (msToIso : Int → String) (d : DatasetId) :
    ∀ pages st, MappedInv st →
      MappedInv (processPages jsDate jsNumber jsDateMs msToIso d st
        pages).1 := by
  intro pages
  induction pages with
  | nil => intro st h; exact h
  | cons p ps ih =>
    intro st h
    rw [processPages]
    cases hp : processPage jsDate jsNumber jsDateMs msToIso d st p with
    | error e => exact h
    | ok st1 =>
      exact ih st1
        (processPage_inv jsDate jsNumber jsDateMs msToIso d st st1 p hp h)

theorem syncOutcome_policy (pr : SyncState × Option Unit)
    (ferr : Option FetchErr) (ct1 : CursorTable) (d : DatasetId)
    (hP : MappedInv pr.1) :
    (syncOutcome pr ferr ct1 d).cursorWrites.length ≤ 1 ∧
    ((syncOutcome pr ferr ct1 d).success = false →
      (syncOutcome pr ferr ct1 d).cursorWrites = []) ∧
    ((syncOutcome pr ferr ct1 d).mappedCount = 0 →
      (syncOutcome pr ferr ct1 d).cursorWrites = []) ∧
    ((syncOutcome pr ferr ct1 d).cursorWrites ≠ [] →
      (syncOutcome pr ferr ct1 d).success = true ∧
      1 ≤ (syncOutcome pr ferr ct1 d).mappedCount) := by
  unfold syncOutcome
  cases pr.2 with
  | some e => exact ⟨by simp, fun _ => rfl, fun _ => rfl, by simp⟩
  | none =>
    cases ferr with
    | some e => exact ⟨by simp, fun _ => rfl, fun _ => rfl, by simp⟩
    | none =>
      cases hm : pr.1.maxUpdatedAt with
      | none => exact ⟨by simp, by simp, fun _ => rfl, by simp⟩
      | some m =>
        have hmap := hP (by simp [hm])
        dsimp only
        refine ⟨by simp, by simp, fun h0 => absurd hmap (by omega),
          fun _ => ⟨rfl, hmap⟩⟩

/-- C3 amended: runSync updates the cursor at most once, never when the
run fails partway (fetch error or thrown error), never when zero
records were mapped; a cursor update implies a fully successful run
with at least one mapped record.  It is NOT enough that a record was
mapped: the counterexample shows a successful run with one mapped
record and no cursor update, because the record carries no
soda_updated_at. -/
theorem cursor_advance_policy (jsDate : String → Option String)
    (jsNumber : String → Option Int) (jsDateMs : String → Option Int)
    (msToIso : Int → String) (isoOf : String → String) (d : DatasetId)
    (api : String → Nat → Except FetchErr (List Raw)) (fuel : Nat)
    (ct : CursorTable) (table : Table) :
    (runSync jsDate jsNumber jsDateMs msToIso isoOf d api fuel ct
        table).cursorWrites.length ≤ 1 ∧
    ((runSync jsDate jsNumber jsDateMs msToIso isoOf d api fuel ct
        table).success = false →
      (runSync jsDate jsNumber jsDateMs msToIso isoOf d api fuel ct
        table).cursorWrites = []) ∧
    ((runSync jsDate jsNumber jsDateMs msToIso isoOf d api fuel ct
        table).mappedCount = 0 →
      (runSync jsDate jsNumber jsDateMs msToIso isoOf d api fuel ct
        table).cursorWrites = []) ∧
    ((runSync jsDate jsNumber jsDateMs msToIso isoOf d api fuel ct
        table).cursorWrites ≠ [] →
      (runSync jsDate jsNumber jsDateMs msToIso isoOf d api fuel ct
        table).success = true ∧
      1 ≤ (runSync jsDate jsNumber jsDateMs msToIso isoOf d api fuel ct
        table).mappedCount) := by
  unfold runSync
  apply syncOutcome_policy
  apply processPages_inv
  intro h
  simp [SyncState.maxUpdatedAt] at h

theorem cursor_advance_policy_witness :
    (runSync (fun _ => none) (fun _ => none) (fun _ => none)
      (fun _ => "") id .pvqr7yc4 (fun _ _ => .ok []) 3 []
      []).cursorWrites.length ≤ 1 ∧
    (runSync (fun _ => none) (fun _ => none) (fun _ => none)
      (fun _ => "") id .pvqr7yc4 (fun _ _ => .ok []) 3 []
      []).cursorWrites = [] := by
  refine ⟨(cursor_advance_policy (fun _ => none) (fun _ => none)
    (fun _ => none) (fun _ => "") id .pvqr7yc4 (fun _ _ => .ok []) 3 []
    []).1, ?_⟩
  exact (cursor_advance_policy (fun _ => none) (fun _ => none)
    (fun _ => none) (fun _ => "") id .pvqr7yc4 (fun _ _ => .ok []) 3 []
    []).2.2.1 (by decide)

/-- C3 counterexample: a run over one page holding one record with a
summons number but no :updated_at system field succeeds with one mapped
record, yet the cursor is not touched — contradicting the claim that
the cursor is set whenever at least one record was mapped. -/
theorem mapped_without_timestamp_no_advance :
    (runSync (fun _ => none) (fun _ => none) (fun _ => none)
      (fun _ => "") id .pvqr7yc4
      (fun _ offset =>
        if offset = 0 then
          .ok [[("summons_number", "123"), (":id", "r1"),
            (":created_at", "c1")]]
        else .ok []) 5 [] []).success = true ∧
    (runSync (fun _ => none) (fun _ => none) (fun _ => none)
      (fun _ => "") id .pvqr7yc4
      (fun _ offset =>
        if offset = 0 then
          .ok [[("summons_number", "123"), (":id", "r1"),
            (":created_at", "c1")]]
        else .ok []) 5 [] []).mappedCount = 1 ∧
    (runSync (fun _ => none) (fun _ => none) (fun _ => none)
      (fun _ => "") id .pvqr7yc4
      (fun _ offset =>
        if offset = 0 then
          .ok [[("summons_number", "123"), (":id", "r1"),
            (":created_at", "c1")]]
        else .ok []) 5 [] []).cursorWrites = [] := by
  decide

/-! ## Scheduler (scripts/scheduler.ts)

In continuous mode, main awaits the initial runCycle and only then arms
setInterval(intervalMs) with an async callback that awaits runCycle.
Node fires an interval timer every intervalMs independently of whether
the promise returned by the previous firing has resolved; the cycle
bodies suspend only at network and database I/O, so the event loop is
free when the timer fires and the k-th timer-fired cycle starts at
armTime + k * intervalMs, where armTime is the completion time of the
awaited initial cycle.  Cycle 0 is the initial cycle starting at time
0; dur k is the duration of cycle k in milliseconds. -/

def cycleStart (intervalMs : Nat) (dur : Nat → Nat) : Nat → Nat
  | 0 => 0
  | k + 1 => dur 0 + intervalMs * (k + 1)

/-- Some earlier cycle is still in flight when a later one starts. -/
def cyclesOverlap (intervalMs : Nat) (dur : Nat → Nat) : Prop :=
  ∃ j k, j < k ∧
    cycleStart intervalMs dur k < cycleStart intervalMs dur j + dur j

/-- C9 counterexample: with the default 15-minute interval, a cycle
lasting 2000 seconds (a slow backfill of new data) is still in flight
when the next timer-fired cycle begins: setInterval does not wait for
the previous callback to return, so sync cycles can overlap. -/
theorem scheduler_cycles_can_overlap :
    cyclesOverlap 900000 (fun _ => 2000000) := by
  refine ⟨1, 2, by omega, ?_⟩
  show cycleStart 900000 (fun _ => 2000000) 2 <
    cycleStart 900000 (fun _ => 2000000) 1 + 2000000
  rw [show (2 : Nat) = 1 + 1 from rfl, cycleStart, cycleStart]
  omega

/-- C9 amended: the recurring timer fires every intervalMs regardless
of cycle completion, so timer-fired cycles are spaced exactly one
interval apart; cycles never overlap exactly when every timer-fired
cycle finishes within the interval (the initial cycle is awaited before
the timer is armed and can never be overlapped). -/
theorem scheduler_no_overlap_iff (intervalMs : Nat) (dur : Nat → Nat) :
    ¬cyclesOverlap intervalMs dur ↔
      ∀ k, 1 ≤ k → dur k ≤ intervalMs := by
  constructor
  · intro hno k hk
    by_contra hgt
    push_neg at hgt
    apply hno
    refine ⟨k, k + 1, by omega, ?_⟩
    cases k with
    | zero => omega
    | succ n =>
      show cycleStart intervalMs dur (n + 1 + 1) <
        cycleStart intervalMs dur (n + 1) + dur (n + 1)
      rw [cycleStart, cycleStart]
      have : intervalMs * (n + 1 + 1) = intervalMs * (n + 1) + intervalMs
        := by ring
      omega
  · intro hbound ⟨j, k, hjk, hover⟩
    cases k with
    | zero => omega
    | succ n =>
      rw [show cycleStart intervalMs dur (n + 1) =
        dur 0 + intervalMs * (n + 1) from rfl] at hover
      cases j with
      | zero =>
        rw [show cycleStart intervalMs dur 0 = 0 from rfl] at hover
        have hge : intervalMs * 1 ≤ intervalMs * (n + 1) :=
          Nat.mul_le_mul_left intervalMs (by omega)
        omega
      | succ i =>
        rw [show cycleStart intervalMs dur (i + 1) =
          dur 0 + intervalMs * (i + 1) from rfl] at hover
        have hd := hbound (i + 1) (by omega)
        have hge : intervalMs * (i + 1 + 1) ≤ intervalMs * (n + 1) :=
          Nat.mul_le_mul_left intervalMs (by omega)
        have : intervalMs * (i + 1 + 1) = intervalMs * (i + 1) + intervalMs
          := by ring
        omega

theorem scheduler_no_overlap_iff_witness :
    ¬cyclesOverlap 900000 (fun _ => 60000) :=
  (scheduler_no_overlap_iff 900000 (fun _ => 60000)).mpr
    (fun _ _ => by omega)

end Parking